import Mathlib

/-!
Shallow embedding of `src/crimson/os/seastore/extent_placement_manager.h`
(crimson seastore extent placement layer) and proofs about it.

The header under verification defines the out-of-line record builder
(`ool_record_t`), the segmented allocator with its writers, and the
`ExtentPlacementManager`.  Helpers it calls that live in other files of the
repository (record size computation, `encode_record`,
`need_delayed_allocation`, the cache and LBA-manager collaborators) are
modelled from the specification and marked as such in their doc comments.
`std::rand()` is modelled as an explicit stream of pseudo-random values, and
the sequential future combinators (`do_for_each`, `si_then`) as ordered event
traces with short-circuiting failure.
-/

namespace EPM

/-- Physical address: a (segment identifier, byte offset) pair, as `paddr_t`
in the source. -/
structure paddr_t where
  segment : Nat
  offset : Nat
deriving DecidableEq, Repr, Inhabited

/-- A logical cached extent as the record builder sees it: type tag, logical
address and payload buffer (`get_type`, `get_laddr`, `get_bptr` in the
source).  Payload bytes are modelled as a list of naturals. -/
structure LogicalCachedExtent where
  etype : Nat
  laddr : Nat
  bptr : List Nat
deriving DecidableEq, Repr, Inhabited

/-- Per-extent descriptor held in `record_t` (`extent_t` in the source):
type, logical address and the copied payload bufferlist. -/
structure extent_t where
  etype : Nat
  laddr : Nat
  bl : List Nat
deriving DecidableEq, Repr, Inhabited

/-- The record being accumulated (`record_t` in the source).  The delta list
is always empty on this code path (`ool_record_t.clear` asserts it), so only
the extent descriptors are carried. -/
structure record_t where
  extents : List extent_t
deriving DecidableEq, Repr, Inhabited

/-- An extent tracked by the record builder together with its assigned
out-of-line address (`ool_record_t::OolExtent`). -/
structure OolExtent where
  ool_offset : paddr_t
  lextent : LogicalCachedExtent
deriving DecidableEq, Repr, Inhabited

/-- The out-of-line record builder state (`ool_record_t`): tracked extents,
the record under construction, the device block size, the running payload
byte total and the base offset. -/
structure ool_record_t where
  extents : List OolExtent
  record : record_t
  block_size : Nat
  extent_buf_len : Nat
  base : Nat
deriving DecidableEq, Repr, Inhabited

/-- Modelled from the spec: `p2roundup` (from `include/intarith.h`, not under
`src/`) rounds `x` up to the next multiple of `align` — "ceil_to_block" in
the spec's record wire format. -/
def p2roundup (x align : Nat) : Nat :=
  ((x + align - 1) / align) * align

/-- Modelled from the spec: the sizes that `get_encoded_record_raw_mdlength`
reads from `seastore_types` (not under `src/`): the fixed record header
overhead and the bounded encoded size of one `extent_info_t` descriptor
(`ceph::encoded_sizeof_bounded<extent_info_t>()`). -/
structure RecordConfig where
  fixed_header_overhead : Nat
  extent_info_size : Nat
deriving DecidableEq, Repr, Inhabited

/-- Modelled from the spec: `get_encoded_record_raw_mdlength` (in
`seastore_types`, not under `src/`) — raw metadata length is the fixed header
overhead plus one bounded descriptor per extent. -/
def get_encoded_record_raw_mdlength (cfg : RecordConfig) (r : record_t) : Nat :=
  cfg.fixed_header_overhead + cfg.extent_info_size * r.extents.length

/-- Encoded record size (`record_size_t` in the source): block-rounded
metadata length plus data length. -/
structure record_size_t where
  mdlength : Nat
  dlength : Nat
deriving DecidableEq, Repr, Inhabited

/-- Total payload byte length of a record: sum of its extents' buffer
lengths. -/
def record_dlength (r : record_t) : Nat :=
  (r.extents.map (fun e => e.bl.length)).sum

/-- Modelled from the spec: `get_encoded_record_length` (in `seastore_types`,
not under `src/`) — metadata length is the raw metadata length rounded up to
the block size; data length is the total payload length. -/
def get_encoded_record_length (cfg : RecordConfig) (r : record_t)
    (block_size : Nat) : record_size_t :=
  ⟨p2roundup (get_encoded_record_raw_mdlength cfg r) block_size,
   record_dlength r⟩

/-- The serialized byte buffer produced by `encode_record`, modelled from the
spec's record wire format: a block-rounded header carrying the nonce, base
and one (type, logical address, payload length) descriptor per extent,
followed by the concatenated payloads. -/
structure encoded_record where
  mdlength : Nat
  dlength : Nat
  base : Nat
  nonce : Nat
  descriptors : List (Nat × Nat × Nat)
  payload : List Nat
deriving DecidableEq, Repr, Inhabited

/-- Modelled from the spec: `encode_record` (in `seastore_types`, not under
`src/`) serializes the record as `[header][payloads]` with the header sized
`rsize.mdlength` and carrying per-extent (type, logical address, payload
length) metadata plus the nonce and base offset. -/
def encode_record (rsize : record_size_t) (r : record_t)
    (_block_size base nonce : Nat) : encoded_record :=
  ⟨rsize.mdlength, rsize.dlength, base, nonce,
   r.extents.map (fun e => (e.etype, e.laddr, e.bl.length)),
   (r.extents.map (fun e => e.bl)).flatten⟩

/-- `MAX_SEG_OFF`: sentinel base offset of a fresh or cleared builder. -/
def MAX_SEG_OFF : Nat := 2 ^ 31 - 1

/-- The `ool_record_t(block_size)` constructor: empty batch, zero payload
total, sentinel base. -/
def ool_record_t.mk0 (block_size : Nat) : ool_record_t :=
  ⟨[], ⟨[]⟩, block_size, 0, MAX_SEG_OFF⟩

/-- `ool_record_t::get_encoded_record_length`. -/
def ool_record_t.get_encoded_record_length (cfg : RecordConfig)
    (r : ool_record_t) : record_size_t :=
  EPM.get_encoded_record_length cfg r.record r.block_size

/-- `ool_record_t::get_wouldbe_encoded_record_length`: block-rounds the raw
metadata length grown by one descriptor and adds the running payload total
plus the candidate's buffer length.  The C++ method reads only const state,
so it is a pure function here. -/
def ool_record_t.get_wouldbe_encoded_record_length (cfg : RecordConfig)
    (r : ool_record_t) (extent : LogicalCachedExtent) : Nat :=
  let raw_mdlength := get_encoded_record_raw_mdlength cfg r.record
  let wouldbe_mdlength := p2roundup
    (raw_mdlength + cfg.extent_info_size) r.block_size
  wouldbe_mdlength + r.extent_buf_len + extent.bptr.length

/-- `ool_record_t::add_extent`: track the extent, append its descriptor and
payload to the record, and grow the running payload total. -/
def ool_record_t.add_extent (r : ool_record_t)
    (extent : LogicalCachedExtent) : ool_record_t :=
  { r with
    extents := r.extents ++ [⟨⟨0, 0⟩, extent⟩],
    record := ⟨r.record.extents ++ [⟨extent.etype, extent.laddr, extent.bptr⟩]⟩,
    extent_buf_len := r.extent_buf_len + extent.bptr.length }

/-- `ool_record_t::clear`. -/
def ool_record_t.clear (r : ool_record_t) : ool_record_t :=
  { r with extents := [], record := ⟨[]⟩, extent_buf_len := 0,
           base := MAX_SEG_OFF }

/-- The address-assignment loop inside `ool_record_t::encode`: walk the
tracked extents in insertion order, giving each the running offset and
advancing it by the extent's buffer length. -/
def assign_paddrs (segment : Nat) : Nat → List OolExtent → List OolExtent
  | _, [] => []
  | off, e :: rest =>
    ⟨⟨segment, off⟩, e.lextent⟩ ::
      assign_paddrs segment (off + e.lextent.bptr.length) rest

/-- `ool_record_t::encode`: computes the encoded size, assigns each tracked
extent its final physical address starting at `base + mdlength`, and returns
the serialized record.  The result pair carries the mutated extent list and
the returned buffer. -/
def ool_record_t.encode (cfg : RecordConfig) (r : ool_record_t)
    (segment nonce : Nat) : List OolExtent × encoded_record :=
  let rsize := r.get_encoded_record_length cfg
  (assign_paddrs segment (r.base + rsize.mdlength) r.extents,
   encode_record rsize r.record r.block_size r.base nonce)

/-- Reachable-state invariant of the builder, maintained by `mk0`,
`add_extent` and `clear`: the record's descriptors mirror the tracked extents
and `extent_buf_len` equals the record's total payload length (the code's
`assert(extents.size() == record.extents.size())` is a consequence). -/
def ool_record_t.wf (r : ool_record_t) : Prop :=
  r.record.extents
      = r.extents.map (fun e => ⟨e.lextent.etype, e.lextent.laddr, e.lextent.bptr⟩)
    ∧ r.extent_buf_len = record_dlength r.record

/-- Device families (`device_type_t` in `seastore_types`). -/
inductive device_type_t where
  | NONE
  | SEGMENTED
  | RANDOM_BLOCK
  | PMEM
deriving DecidableEq, Repr, Inhabited

/-- The global `std::rand()` stream, modelled explicitly: each call consumes
the head of a list of pseudo-random values (0 once exhausted). -/
def rand_next : List Nat → Nat × List Nat
  | [] => (0, [])
  | n :: rest => (n, rest)

/-- `ExtentPlacementManager::should_be_inline`: `(std::rand() % 2) == 0`,
consuming one pseudo-random value. -/
def should_be_inline (rng : List Nat) : Bool × List Nat :=
  let p := rand_next rng
  (p.1 % 2 == 0, p.2)

/-- `SegmentedAllocator::get_writer(hint)`:
`writers[std::rand() % writers.size()]` — the hint parameter is unused by the
source.  Writers are modelled by identifiers. -/
def get_writer (writers : List Nat) (_hint : Nat) (rng : List Nat) :
    Nat × List Nat :=
  let p := rand_next rng
  (writers.getD (p.1 % writers.length) 0, p.2)

/-- `ExtentPlacementManager::get_allocator(type, hint)`:
`devices[std::rand() % devices.size()]` over the allocators registered for
the family — the hint parameter is unused by the source.  Allocators are
modelled by identifiers. -/
def get_allocator (allocators : device_type_t → List Nat)
    (ty : device_type_t) (_hint : Nat) (rng : List Nat) : Nat × List Nat :=
  let p := rand_next rng
  let devices := allocators ty
  (devices.getD (p.1 % devices.length) 0, p.2)

/-- A delayed-allocation extent as `delayed_alloc_or_ool_write` sees it:
identity, validity flag (`is_valid`), logical address, current (temporary)
physical address, resolved backend family and placement hint. -/
structure DExtent where
  xid : Nat
  valid : Bool
  laddr : Nat
  paddr : paddr_t
  backend_type : device_type_t
  hint : Nat
deriving DecidableEq, Repr, Inhabited

/-- External collaborators of the resolution pass: the final in-cache address
that `Cache::mark_delayed_extent_inline` assigns, and the allocator pool
registered per device family via `add_allocator`. -/
structure ResolutionParams where
  inline_paddr : DExtent → paddr_t
  allocators : device_type_t → List Nat

/-- Modelled from the spec: `Cache::mark_delayed_extent_inline` (in
`cache.h`, not under `src/`) transitions the extent to a final in-cache
address; only the physical address changes. -/
def mark_delayed_extent_inline (p : ResolutionParams) (e : DExtent) :
    DExtent :=
  { e with paddr := p.inline_paddr e }

/-- State of the classification loop in `delayed_alloc_or_ool_write`: the
transaction's invalid-extent counter, the queued inline pairs
`(old address, extent)`, the per-allocator out-of-line groups, and the
pseudo-random stream. -/
structure ClassifyState where
  invalid_count : Nat
  inline_list : List (paddr_t × DExtent)
  alloc_map : List (Nat × List DExtent)
  rng : List Nat
deriving DecidableEq, Repr, Inhabited

/-- `alloc_map[allocator].emplace_back(extent)`: append to the allocator's
group, creating the entry if absent. -/
def map_add (m : List (Nat × List DExtent)) (a : Nat) (e : DExtent) :
    List (Nat × List DExtent) :=
  match m with
  | [] => [(a, [e])]
  | (k, v) :: rest =>
    if k = a then (k, v ++ [e]) :: rest else (k, v) :: map_add rest a e

/-- `ClassifyState.init`: counter as inherited from the transaction, empty
lists, given pseudo-random stream. -/
def ClassifyState.init (c0 : Nat) (rng : List Nat) : ClassifyState :=
  ⟨c0, [], [], rng⟩

/-- The classification loop of `delayed_alloc_or_ool_write`: invalid extents
bump the counter and are dropped; valid extents are queued inline (capturing
the old address before `mark_delayed_extent_inline`) or grouped under the
allocator chosen by `get_allocator`. -/
def classify_loop (p : ResolutionParams) :
    List DExtent → ClassifyState → ClassifyState
  | [], s => s
  | e :: rest, s =>
    if e.valid = false then
      classify_loop p rest { s with invalid_count := s.invalid_count + 1 }
    else
      let d := should_be_inline s.rng
      if d.1 then
        let old_addr := e.paddr
        let e2 := mark_delayed_extent_inline p e
        classify_loop p rest
          { s with inline_list := s.inline_list ++ [(old_addr, e2)],
                   rng := d.2 }
      else
        let g := get_allocator p.allocators e.backend_type e.hint d.2
        classify_loop p rest
          { s with alloc_map := map_add s.alloc_map g.1 e, rng := g.2 }

/-- Identities of the extents queued for inline index updates. -/
def inline_xids (il : List (paddr_t × DExtent)) : List Nat :=
  il.map (fun q => q.2.xid)

/-- Identities of the extents grouped for out-of-line allocation. -/
def alloc_map_xids (m : List (Nat × List DExtent)) : List Nat :=
  (m.map (fun q => q.2)).flatten.map (fun e => e.xid)

/-- Observable events of the resolution pass: an
`allocator->alloc_ool_extents_paddr` dispatch with its group, and an
`lba_manager.update_mapping(laddr, old, new)` call. -/
inductive Event where
  | ool_alloc (allocator : Nat) (xids : List Nat)
  | update_mapping (laddr : Nat) (old_addr new_addr : paddr_t)
deriving DecidableEq, Repr, Inhabited

/-- Whether an event is an inline index update. -/
def Event.is_update : Event → Bool
  | .update_mapping _ _ _ => true
  | _ => false

/-- The first phase of `delayed_alloc_or_ool_write`:
`trans_intr::do_for_each(alloc_map, alloc_ool_extents_paddr)` — the groups
are processed in order, stopping at the first failure; `res` gives each
allocator's outcome. -/
def run_ool (res : Nat → Bool) : List (Nat × List DExtent) → List Event × Bool
  | [] => ([], true)
  | (a, exts) :: rest =>
    let ev := Event.ool_alloc a (exts.map (fun e => e.xid))
    if res a then
      let r := run_ool res rest
      (ev :: r.1, r.2)
    else ([ev], false)

/-- The second phase: `trans_intr::do_for_each(inline_list, ...)`, calling
`lba_manager.update_mapping(t, extent->get_laddr(), old_addr,
extent->get_paddr())` for each queued pair, stopping at the first failure;
`ures` gives each update's outcome. -/
def run_inline (ures : Nat → paddr_t → paddr_t → Bool) :
    List (paddr_t × DExtent) → List Event × Bool
  | [] => ([], true)
  | (old_addr, e) :: rest =>
    let ev := Event.update_mapping e.laddr old_addr e.paddr
    if ures e.laddr old_addr e.paddr then
      let r := run_inline ures rest
      (ev :: r.1, r.2)
    else ([ev], false)

/-- `ExtentPlacementManager::delayed_alloc_or_ool_write`: classify the
transaction's delayed-allocation list, run every allocator group's
out-of-line allocation, and only on success of all of them (`si_then`) run
the queued inline index updates.  Returns the event trace and overall
success. -/
def delayed_alloc_or_ool_write (p : ResolutionParams) (res : Nat → Bool)
    (ures : Nat → paddr_t → paddr_t → Bool) (l : List DExtent)
    (c0 : Nat) (rng : List Nat) : List Event × Bool :=
  let s := classify_loop p l (ClassifyState.init c0 rng)
  let r1 := run_ool res s.alloc_map
  if r1.2 then
    let r2 := run_inline ures s.inline_list
    (r1.1 ++ r2.1, r2.2)
  else (r1.1, false)

/-- The admission gate of a writer, `seastar::gate` (from seastar, outside
this repository): `close()` may be called only once — a second call fails the
gate's "cannot be called twice" assertion, modelled as an error result. -/
structure seastar_gate where
  closed : Bool
deriving DecidableEq, Repr, Inhabited

/-- `seastar::gate::close()`: fails if already closed, otherwise marks the
gate closed (and, in seastar, waits for in-flight operations to drain). -/
def gate_close (g : seastar_gate) : Except String seastar_gate :=
  if g.closed then Except.error "gate closed twice"
  else Except.ok ⟨true⟩

/-- An open-segment handle as tracked in the writer's `open_segments` list:
segment identity and whether the segment is still open. -/
structure SegmentHandle where
  sid : Nat
  is_open : Bool
deriving DecidableEq, Repr, Inhabited

/-- The state of `SegmentedAllocator::Writer` that `stop()` touches: the
admission gate and the tracked open-segment handles. -/
structure WriterState where
  writer_guard : seastar_gate
  open_segments : List SegmentHandle
deriving DecidableEq, Repr, Inhabited

/-- `SegmentedAllocator::Writer::stop`: `writer_guard.close()` then
`do_for_each(open_segments, segment->close())`. -/
def WriterState.stop (w : WriterState) : Except String WriterState :=
  (gate_close w.writer_guard).map (fun g =>
    ⟨g, w.open_segments.map (fun s => ⟨s.sid, false⟩)⟩)

/-- Address assigned by the cache at allocation: a transaction-unique
temporary placeholder or an immediately final address. -/
inductive addr_state where
  | temporary (token : Nat)
  | assigned (addr : paddr_t)
deriving DecidableEq, Repr, Inhabited

/-- A freshly allocated extent as returned by `alloc_new_extent_by_type`:
type tag, length, address state, recorded backend family and hint. -/
structure AllocatedExtent where
  etype : Nat
  length : Nat
  addr : addr_state
  backend_type : device_type_t
  hint : Nat
deriving DecidableEq, Repr, Inhabited

/-- Modelled from the spec: `Cache::alloc_new_extent_by_type(t, type,
length, delayed)` (in `cache.h`, not under `src/`) materializes a new extent;
with `delayed = true` it carries a transaction-unique temporary placeholder
address, otherwise an immediately final address.  `tmp_token` and `fin_addr`
stand for the cache's address choices; family and hint are filled in by the
caller. -/
def cache_alloc_new_extent_by_type (tmp_token : Nat) (fin_addr : paddr_t)
    (ty len : Nat) (delayed : Bool) : AllocatedExtent :=
  ⟨ty, len,
   if delayed then addr_state.temporary tmp_token else addr_state.assigned fin_addr,
   device_type_t.NONE, 0⟩

/-- Modelled from the spec: `need_delayed_allocation` (in `seastore_types`,
not under `src/`) — sequential-write-only families (SEGMENTED) need delayed
allocation; NVDIMM/PMEM-like random-write families do not. -/
def need_delayed_allocation : device_type_t → Bool
  | device_type_t.SEGMENTED => true
  | _ => false

/-- `ExtentPlacementManager::get_allocator_type(hint)`: ignores the hint and
returns SEGMENTED. -/
def get_allocator_type (_hint : Nat) : device_type_t :=
  device_type_t.SEGMENTED

/-- `ExtentPlacementManager::alloc_new_extent_by_type`: resolve the family
from the hint, ask the cache for a delayed (temporary-address) extent exactly
when the family needs delayed allocation, then record family and hint on the
extent. -/
def alloc_new_extent_by_type (tmp_token : Nat) (fin_addr : paddr_t)
    (ty len hint : Nat) : AllocatedExtent :=
  let dtype := get_allocator_type hint
  let extent :=
    if need_delayed_allocation dtype then
      cache_alloc_new_extent_by_type tmp_token fin_addr ty len true
    else
      cache_alloc_new_extent_by_type tmp_token fin_addr ty len false
  { extent with backend_type := dtype, hint := hint }

/-- `ExtentPlacementManager::alloc_new_extent<T>`: the typed variant; the
template parameter's extent type stands as `ty`.  Same policy. -/
def alloc_new_extent (tmp_token : Nat) (fin_addr : paddr_t)
    (ty len hint : Nat) : AllocatedExtent :=
  let dtype := get_allocator_type hint
  let extent :=
    if need_delayed_allocation dtype then
      cache_alloc_new_extent_by_type tmp_token fin_addr ty len true
    else
      cache_alloc_new_extent_by_type tmp_token fin_addr ty len false
  { extent with backend_type := dtype, hint := hint }

theorem wf_mk0 (block_size : Nat) : (ool_record_t.mk0 block_size).wf := by
  constructor <;> rfl

theorem wf_add_extent (r : ool_record_t) (e : LogicalCachedExtent)
    (h : r.wf) : (r.add_extent e).wf := by
  obtain ⟨h1, h2⟩ := h
  constructor
  · simp [ool_record_t.add_extent, h1]
  · simp [ool_record_t.add_extent, record_dlength] at h2 ⊢
    omega

theorem wf_clear (r : ool_record_t) : r.clear.wf := by
  constructor <;> rfl

theorem assign_paddrs_length (segment : Nat) (l : List OolExtent) :
    ∀ off : Nat, (assign_paddrs segment off l).length = l.length := by
  induction l with
  | nil => intro off; rfl
  | cons e rest ih =>
    intro off
    simp [assign_paddrs, ih]

theorem assign_paddrs_getD (segment : Nat) (l : List OolExtent) :
    ∀ off i : Nat, i < l.length →
      ((assign_paddrs segment off l).getD i default).ool_offset
        = ⟨segment,
           off + ((l.take i).map (fun e => e.lextent.bptr.length)).sum⟩ := by
  induction l with
  | nil => intro off i hi; simp at hi
  | cons e rest ih =>
    intro off i hi
    cases i with
    | zero => simp [assign_paddrs]
    | succ j =>
      have hj : j < rest.length := by
        simpa using Nat.lt_of_succ_lt_succ hi
      simp only [assign_paddrs, List.getD_cons_succ, List.take_succ_cons,
        List.map_cons, List.sum_cons]
      rw [ih (off + e.lextent.bptr.length) j hj]
      congr 1
      omega

theorem assign_paddrs_lextents (segment : Nat) (l : List OolExtent) :
    ∀ off : Nat,
      (assign_paddrs segment off l).map (fun e => e.lextent)
        = l.map (fun e => e.lextent) := by
  induction l with
  | nil => intro off; rfl
  | cons e rest ih =>
    intro off
    simp [assign_paddrs, ih]

/-- C1: `ool_record_t::encode(segment, nonce)` assigns the i-th tracked
extent (insertion order preserved) the physical address
`(segment, base + mdlength + sum of the payload lengths of the earlier
extents)`, where `mdlength` is the batch's block-rounded encoded metadata
length, and returns the serialized record built by `encode_record` from the
batch at that size. -/
theorem encode_assigns_sequential_paddrs (cfg : RecordConfig)
    (r : ool_record_t) (segment nonce i : Nat)
    (hi : i < r.extents.length) :
    (((r.encode cfg segment nonce).1.getD i default).ool_offset
        = ⟨segment,
           r.base + (r.get_encoded_record_length cfg).mdlength
             + ((r.extents.take i).map
                  (fun e => e.lextent.bptr.length)).sum⟩)
    ∧ ((r.encode cfg segment nonce).1.map (fun e => e.lextent)
        = r.extents.map (fun e => e.lextent))
    ∧ (r.encode cfg segment nonce).2
        = encode_record (r.get_encoded_record_length cfg) r.record
            r.block_size r.base nonce := by
  refine ⟨?_, ?_, rfl⟩
  · exact assign_paddrs_getD segment r.extents
      (r.base + (r.get_encoded_record_length cfg).mdlength) i hi
  · exact assign_paddrs_lextents segment r.extents
      (r.base + (r.get_encoded_record_length cfg).mdlength)

theorem encode_assigns_sequential_paddrs_witness :
    ((({ ((ool_record_t.mk0 8).add_extent
            ⟨1, 100, [7, 7, 7, 7, 7, 7, 7]⟩).add_extent
          ⟨2, 200, [9, 9, 9]⟩ with base := 96 } : ool_record_t).encode
        ⟨5, 4⟩ 3 99).1.getD 1 default).ool_offset
      = ⟨3, 96 + 16 + 7⟩ := by
  have h := encode_assigns_sequential_paddrs ⟨5, 4⟩
    ({ ((ool_record_t.mk0 8).add_extent
          ⟨1, 100, [7, 7, 7, 7, 7, 7, 7]⟩).add_extent
        ⟨2, 200, [9, 9, 9]⟩ with base := 96 })
    3 99 1 (by decide)
  refine h.1.trans ?_
  decide

/-- C2: `get_wouldbe_encoded_record_length(e)` on a well-formed builder
returns exactly the total encoded length (block-rounded metadata length plus
total payload length) that the batch occupies after `add_extent(e)`.  The
method reads only const state, so the builder is unchanged by construction of
the embedding. -/
theorem get_wouldbe_matches_add_extent (cfg : RecordConfig)
    (r : ool_record_t) (e : LogicalCachedExtent)
    (h : r.extent_buf_len = record_dlength r.record) :
    r.get_wouldbe_encoded_record_length cfg e
      = ((r.add_extent e).get_encoded_record_length cfg).mdlength
        + ((r.add_extent e).get_encoded_record_length cfg).dlength := by
  simp only [ool_record_t.get_wouldbe_encoded_record_length,
    ool_record_t.get_encoded_record_length, get_encoded_record_length,
    ool_record_t.add_extent, get_encoded_record_raw_mdlength,
    record_dlength] at *
  simp only [List.map_append, List.sum_append, List.length_append,
    List.map_cons, List.map_nil, List.sum_cons, List.sum_nil,
    List.length_cons, List.length_nil]
  rw [h]
  ring_nf

theorem get_wouldbe_matches_add_extent_witness :
    ((ool_record_t.mk0 8).add_extent
        ⟨1, 100, [7, 7, 7, 7, 7, 7, 7]⟩).extent_buf_len
      = record_dlength ((ool_record_t.mk0 8).add_extent
          ⟨1, 100, [7, 7, 7, 7, 7, 7, 7]⟩).record
    ∧ ((ool_record_t.mk0 8).add_extent
          ⟨1, 100, [7, 7, 7, 7, 7, 7, 7]⟩).get_wouldbe_encoded_record_length
        ⟨5, 4⟩ ⟨2, 200, [9, 9, 9]⟩
      = ((((ool_record_t.mk0 8).add_extent
              ⟨1, 100, [7, 7, 7, 7, 7, 7, 7]⟩).add_extent
            ⟨2, 200, [9, 9, 9]⟩).get_encoded_record_length ⟨5, 4⟩).mdlength
        + ((((ool_record_t.mk0 8).add_extent
                ⟨1, 100, [7, 7, 7, 7, 7, 7, 7]⟩).add_extent
              ⟨2, 200, [9, 9, 9]⟩).get_encoded_record_length ⟨5, 4⟩).dlength := by
  refine ⟨by decide, ?_⟩
  exact get_wouldbe_matches_add_extent ⟨5, 4⟩
    ((ool_record_t.mk0 8).add_extent ⟨1, 100, [7, 7, 7, 7, 7, 7, 7]⟩)
    ⟨2, 200, [9, 9, 9]⟩ (by decide)

theorem map_add_xids_count (a : Nat) (e : DExtent) (x : Nat) :
    ∀ m : List (Nat × List DExtent),
      (alloc_map_xids (map_add m a e)).count x
        = (alloc_map_xids m).count x + (if e.xid = x then 1 else 0) := by
  intro m
  induction m with
  | nil =>
    by_cases hx : e.xid = x <;>
      simp [map_add, alloc_map_xids, hx, List.count_cons] <;> omega
  | cons kv rest ih =>
    obtain ⟨k, v⟩ := kv
    by_cases hk : k = a
    · by_cases hx : e.xid = x <;>
        simp [map_add, hk, alloc_map_xids, hx, List.count_append,
          List.count_cons] <;> omega
    · simp only [map_add, if_neg hk, alloc_map_xids, List.map_cons,
        List.flatten_cons, List.map_append, List.count_append] at ih ⊢
      omega

theorem classify_invalid_count (p : ResolutionParams) :
    ∀ (l : List DExtent) (s : ClassifyState),
      (classify_loop p l s).invalid_count
        = s.invalid_count + l.countP (fun e => !e.valid) := by
  intro l
  induction l with
  | nil => intro s; simp [classify_loop]
  | cons e rest ih =>
    intro s
    by_cases hv : e.valid = false
    · simp [classify_loop, hv, ih, List.countP_cons]
      omega
    · have hv' : e.valid = true := by
        cases h : e.valid
        · exact absurd h hv
        · rfl
      by_cases hd : (should_be_inline s.rng).1 = true
      · simp [classify_loop, hv', hd, ih, List.countP_cons]
      · simp [classify_loop, hv', hd, ih, List.countP_cons]

theorem classify_xids_count (p : ResolutionParams) (x : Nat) :
    ∀ (l : List DExtent) (s : ClassifyState),
      (inline_xids (classify_loop p l s).inline_list).count x
        + (alloc_map_xids (classify_loop p l s).alloc_map).count x
        = (inline_xids s.inline_list).count x
          + (alloc_map_xids s.alloc_map).count x
          + ((l.filter (fun e => e.valid)).map (fun e => e.xid)).count x := by
  intro l
  induction l with
  | nil => intro s; simp [classify_loop]
  | cons e rest ih =>
    intro s
    by_cases hv : e.valid = false
    · have heq : classify_loop p (e :: rest) s
          = classify_loop p rest { s with invalid_count := s.invalid_count + 1 } := by
        simp [classify_loop, hv]
      rw [heq, ih]
      simp [List.filter_cons, hv]
    · have hv' : e.valid = true := by simpa using hv
      by_cases hd : (should_be_inline s.rng).1 = true
      · have heq : classify_loop p (e :: rest) s
            = classify_loop p rest
                { s with
                  inline_list := s.inline_list
                    ++ [(e.paddr, mark_delayed_extent_inline p e)],
                  rng := (should_be_inline s.rng).2 } := by
          simp [classify_loop, hv', hd]
        rw [heq, ih]
        by_cases hx : e.xid = x <;>
          simp [inline_xids, List.count_append, List.filter_cons, hv',
            mark_delayed_extent_inline, hx, List.count_cons] <;> omega
      · have heq : classify_loop p (e :: rest) s
            = classify_loop p rest
                { s with
                  alloc_map := map_add s.alloc_map
                    (get_allocator p.allocators e.backend_type e.hint
                      (should_be_inline s.rng).2).1 e,
                  rng := (get_allocator p.allocators e.backend_type e.hint
                    (should_be_inline s.rng).2).2 } := by
          simp [classify_loop, hv', hd]
        rw [heq, ih, map_add_xids_count]
        by_cases hx : e.xid = x <;>
          simp [List.filter_cons, hv', hx, List.count_cons] <;> omega

theorem nodup_map_filter_count {α β : Type} [DecidableEq β] (f : α → β)
    (q : α → Bool) (l : List α) (hnd : (l.map f).Nodup)
    (e : α) (he : e ∈ l) :
    ((l.filter q).map f).count (f e) = if q e then 1 else 0 := by
  have hsub : ((l.filter q).map f).Sublist (l.map f) :=
    (List.filter_sublist l).map f
  have hnd' : ((l.filter q).map f).Nodup := hnd.sublist hsub
  by_cases hq : q e = true
  · have hmem : f e ∈ (l.filter q).map f :=
      List.mem_map_of_mem f (List.mem_filter.mpr ⟨he, hq⟩)
    have h1 : 0 < ((l.filter q).map f).count (f e) :=
      List.count_pos_iff.mpr hmem
    have h2 : ((l.filter q).map f).count (f e) ≤ 1 :=
      List.nodup_iff_count_le_one.mp hnd' (f e)
    rw [if_pos hq]
    omega
  · have hinj := List.inj_on_of_nodup_map hnd
    have hnotmem : f e ∉ (l.filter q).map f := by
      intro hmem
      obtain ⟨e2, he2, hfe⟩ := List.mem_map.mp hmem
      obtain ⟨he2l, hq2⟩ := List.mem_filter.mp he2
      have : e2 = e := hinj he2l he hfe
      rw [this] at hq2
      exact hq hq2
    rw [if_neg hq, List.count_eq_zero]
    exact hnotmem

/-- C3: in the classification pass of `delayed_alloc_or_ool_write`, each
invalid extent bumps the transaction's invalid-extent counter by exactly one
and lands in neither the inline list nor any allocator's out-of-line group,
while each valid extent lands in exactly one of the two. -/
theorem delayed_alloc_classifies_extents (p : ResolutionParams)
    (l : List DExtent) (c0 : Nat) (rng : List Nat)
    (hnd : (l.map (fun e => e.xid)).Nodup) :
    ((classify_loop p l (ClassifyState.init c0 rng)).invalid_count
        = c0 + l.countP (fun e => !e.valid))
    ∧ ∀ e ∈ l,
        (e.valid = false →
          (inline_xids
              (classify_loop p l (ClassifyState.init c0 rng)).inline_list).count
              e.xid = 0
            ∧ (alloc_map_xids
                (classify_loop p l (ClassifyState.init c0 rng)).alloc_map).count
                e.xid = 0)
        ∧ (e.valid = true →
          (inline_xids
              (classify_loop p l (ClassifyState.init c0 rng)).inline_list).count
              e.xid
            + (alloc_map_xids
                (classify_loop p l (ClassifyState.init c0 rng)).alloc_map).count
                e.xid = 1) := by
  constructor
  · exact classify_invalid_count p l (ClassifyState.init c0 rng)
  · intro e he
    have hcount := classify_xids_count p e.xid l (ClassifyState.init c0 rng)
    rw [show inline_xids (ClassifyState.init c0 rng).inline_list = [] from rfl,
        show alloc_map_xids (ClassifyState.init c0 rng).alloc_map = [] from rfl,
        List.count_nil] at hcount
    have hf := nodup_map_filter_count (fun e => e.xid) (fun e => e.valid)
      l hnd e he
    constructor
    · intro hv
      simp only [hv, Bool.false_eq_true, if_false] at hf
      constructor <;> omega
    · intro hv
      simp only [hv, if_true] at hf
      omega

theorem delayed_alloc_classifies_extents_witness :
    (inline_xids
        (classify_loop ⟨fun e => ⟨9, e.xid⟩, fun _ => [3, 4]⟩
          [⟨1, false, 11, ⟨100, 0⟩, device_type_t.SEGMENTED, 0⟩,
           ⟨2, true, 22, ⟨100, 1⟩, device_type_t.SEGMENTED, 0⟩,
           ⟨3, true, 33, ⟨100, 2⟩, device_type_t.SEGMENTED, 0⟩]
          (ClassifyState.init 0 [0, 1, 0])).inline_list).count 2
      + (alloc_map_xids
          (classify_loop ⟨fun e => ⟨9, e.xid⟩, fun _ => [3, 4]⟩
            [⟨1, false, 11, ⟨100, 0⟩, device_type_t.SEGMENTED, 0⟩,
             ⟨2, true, 22, ⟨100, 1⟩, device_type_t.SEGMENTED, 0⟩,
             ⟨3, true, 33, ⟨100, 2⟩, device_type_t.SEGMENTED, 0⟩]
            (ClassifyState.init 0 [0, 1, 0])).alloc_map).count 2 = 1 := by
  have h := delayed_alloc_classifies_extents
    ⟨fun e => ⟨9, e.xid⟩, fun _ => [3, 4]⟩
    [⟨1, false, 11, ⟨100, 0⟩, device_type_t.SEGMENTED, 0⟩,
     ⟨2, true, 22, ⟨100, 1⟩, device_type_t.SEGMENTED, 0⟩,
     ⟨3, true, 33, ⟨100, 2⟩, device_type_t.SEGMENTED, 0⟩]
    0 [0, 1, 0] (by decide)
  exact (h.2 ⟨2, true, 22, ⟨100, 1⟩, device_type_t.SEGMENTED, 0⟩
    (by decide)).2 rfl

theorem classify_inline_mem (p : ResolutionParams) :
    ∀ (l : List DExtent) (s : ClassifyState),
      ∀ q ∈ (classify_loop p l s).inline_list,
        q ∈ s.inline_list
          ∨ ∃ e, e ∈ l ∧ e.valid = true
              ∧ q = (e.paddr, mark_delayed_extent_inline p e) := by
  intro l
  induction l with
  | nil => intro s q hq; exact Or.inl hq
  | cons e rest ih =>
    intro s q hq
    by_cases hv : e.valid = false
    · rw [show classify_loop p (e :: rest) s
          = classify_loop p rest { s with invalid_count := s.invalid_count + 1 }
        from by simp [classify_loop, hv]] at hq
      rcases ih _ q hq with h | ⟨e2, he2, hv2, hq2⟩
      · exact Or.inl h
      · exact Or.inr ⟨e2, List.mem_cons_of_mem _ he2, hv2, hq2⟩
    · have hv' : e.valid = true := by simpa using hv
      by_cases hd : (should_be_inline s.rng).1 = true
      · rw [show classify_loop p (e :: rest) s
            = classify_loop p rest
                { s with
                  inline_list := s.inline_list
                    ++ [(e.paddr, mark_delayed_extent_inline p e)],
                  rng := (should_be_inline s.rng).2 }
          from by simp [classify_loop, hv', hd]] at hq
        rcases ih _ q hq with h | ⟨e2, he2, hv2, hq2⟩
        · rcases List.mem_append.mp h with h1 | h1
          · exact Or.inl h1
          · exact Or.inr ⟨e, List.mem_cons_self _ _, hv', by simpa using h1⟩
        · exact Or.inr ⟨e2, List.mem_cons_of_mem _ he2, hv2, hq2⟩
      · rw [show classify_loop p (e :: rest) s
            = classify_loop p rest
                { s with
                  alloc_map := map_add s.alloc_map
                    (get_allocator p.allocators e.backend_type e.hint
                      (should_be_inline s.rng).2).1 e,
                  rng := (get_allocator p.allocators e.backend_type e.hint
                    (should_be_inline s.rng).2).2 }
          from by simp [classify_loop, hv', hd]] at hq
        rcases ih _ q hq with h | ⟨e2, he2, hv2, hq2⟩
        · exact Or.inl h
        · exact Or.inr ⟨e2, List.mem_cons_of_mem _ he2, hv2, hq2⟩

theorem run_ool_no_update (res : Nat → Bool) :
    ∀ m : List (Nat × List DExtent), ∀ ev ∈ (run_ool res m).1,
      ev.is_update = false := by
  intro m
  induction m with
  | nil => intro ev hev; simp [run_ool] at hev
  | cons q rest ih =>
    obtain ⟨a, exts⟩ := q
    intro ev hev
    by_cases h : res a = true
    · simp only [run_ool, h, if_true, List.mem_cons] at hev
      rcases hev with rfl | hev
      · rfl
      · exact ih ev hev
    · simp only [run_ool, h, if_false, Bool.false_eq_true,
        List.mem_singleton] at hev
      rw [hev]
      rfl

theorem run_inline_events (ures : Nat → paddr_t → paddr_t → Bool) :
    ∀ il : List (paddr_t × DExtent), ∀ ev ∈ (run_inline ures il).1,
      ev.is_update = true
        ∧ ∃ q, q ∈ il ∧ ev = Event.update_mapping q.2.laddr q.1 q.2.paddr := by
  intro il
  induction il with
  | nil => intro ev hev; simp [run_inline] at hev
  | cons q rest ih =>
    obtain ⟨old_addr, e⟩ := q
    intro ev hev
    by_cases h : ures e.laddr old_addr e.paddr = true
    · simp only [run_inline, h, if_true, List.mem_cons] at hev
      rcases hev with rfl | hev
      · exact ⟨rfl, ⟨(old_addr, e), List.mem_cons_self _ _, rfl⟩⟩
      · obtain ⟨h1, qq, hq, he⟩ := ih ev hev
        exact ⟨h1, qq, List.mem_cons_of_mem _ hq, he⟩
    · simp only [run_inline, h, if_false, Bool.false_eq_true,
        List.mem_singleton] at hev
      rw [hev]
      exact ⟨rfl, ⟨(old_addr, e), List.mem_cons_self _ _, rfl⟩⟩

theorem run_ool_ok_iff (res : Nat → Bool) :
    ∀ m : List (Nat × List DExtent),
      (run_ool res m).2 = true ↔ ∀ q ∈ m, res q.1 = true := by
  intro m
  induction m with
  | nil => simp [run_ool]
  | cons q rest ih =>
    obtain ⟨a, exts⟩ := q
    by_cases h : res a = true
    · simp [run_ool, h, ih, List.forall_mem_cons]
    · simp [run_ool, h, List.forall_mem_cons]

theorem run_inline_ok_iff (ures : Nat → paddr_t → paddr_t → Bool) :
    ∀ il : List (paddr_t × DExtent),
      (run_inline ures il).2 = true
        ↔ ∀ q ∈ il, ures q.2.laddr q.1 q.2.paddr = true := by
  intro il
  induction il with
  | nil => simp [run_inline]
  | cons q rest ih =>
    obtain ⟨old_addr, e⟩ := q
    by_cases h : ures e.laddr old_addr e.paddr = true
    · simp [run_inline, h, ih, List.forall_mem_cons]
    · simp [run_inline, h, List.forall_mem_cons]

/-- C4: in `delayed_alloc_or_ool_write`, every inline `update_mapping` event
comes after every out-of-line allocator dispatch in the trace (the inline
pass is only entered once all ool groups have completed), and each inline
update carries the extent's logical address, its pre-inline temporary
address as the expected old value, and the final in-cache address assigned
by `mark_delayed_extent_inline` as the replacement. -/
theorem delayed_alloc_inline_after_ool (p : ResolutionParams)
    (res : Nat → Bool) (ures : Nat → paddr_t → paddr_t → Bool)
    (l : List DExtent) (c0 : Nat) (rng : List Nat) :
    (∃ t1 t2,
        (delayed_alloc_or_ool_write p res ures l c0 rng).1 = t1 ++ t2
        ∧ (∀ ev ∈ t1, ev.is_update = false)
        ∧ (∀ ev ∈ t2, ev.is_update = true))
    ∧ (∀ ev ∈ (delayed_alloc_or_ool_write p res ures l c0 rng).1,
        ev.is_update = true →
        ∃ e, e ∈ l ∧ e.valid = true
          ∧ ev = Event.update_mapping e.laddr e.paddr
              (mark_delayed_extent_inline p e).paddr) := by
  by_cases hr : (run_ool res
      (classify_loop p l (ClassifyState.init c0 rng)).alloc_map).2 = true
  · have hd : delayed_alloc_or_ool_write p res ures l c0 rng
        = ((run_ool res
              (classify_loop p l (ClassifyState.init c0 rng)).alloc_map).1
            ++ (run_inline ures
                (classify_loop p l (ClassifyState.init c0 rng)).inline_list).1,
           (run_inline ures
              (classify_loop p l (ClassifyState.init c0 rng)).inline_list).2) := by
      simp [delayed_alloc_or_ool_write, hr]
    rw [hd]
    constructor
    · exact ⟨_, _, rfl, run_ool_no_update res _,
        fun ev hev => (run_inline_events ures _ ev hev).1⟩
    · intro ev hev hupd
      rcases List.mem_append.mp hev with h1 | h2
      · have := run_ool_no_update res _ ev h1
        rw [hupd] at this
        exact absurd this (by simp)
      · obtain ⟨_, qq, hq, he⟩ := run_inline_events ures _ ev h2
        rcases classify_inline_mem p l (ClassifyState.init c0 rng) qq hq with
          hq0 | ⟨e, hel, hev', hqe⟩
        · simp [ClassifyState.init] at hq0
        · refine ⟨e, hel, hev', ?_⟩
          rw [he, hqe]
          rfl
  · have hd : delayed_alloc_or_ool_write p res ures l c0 rng
        = ((run_ool res
              (classify_loop p l (ClassifyState.init c0 rng)).alloc_map).1,
           false) := by
      simp [delayed_alloc_or_ool_write, hr]
    rw [hd]
    constructor
    · exact ⟨_, [], (List.append_nil _).symm, run_ool_no_update res _,
        by simp⟩
    · intro ev hev hupd
      have := run_ool_no_update res _ ev hev
      rw [hupd] at this
      exact absurd this (by simp)

theorem delayed_alloc_inline_after_ool_witness :
    ∃ e, e ∈ [(⟨1, false, 11, ⟨100, 0⟩, device_type_t.SEGMENTED, 0⟩ : DExtent),
              ⟨2, true, 22, ⟨100, 1⟩, device_type_t.SEGMENTED, 0⟩,
              ⟨3, true, 33, ⟨100, 2⟩, device_type_t.SEGMENTED, 0⟩]
      ∧ e.valid = true
      ∧ Event.update_mapping 22 ⟨100, 1⟩ ⟨9, 2⟩
          = Event.update_mapping e.laddr e.paddr
              (mark_delayed_extent_inline
                ⟨fun e => ⟨9, e.xid⟩, fun _ => [3, 4]⟩ e).paddr :=
  (delayed_alloc_inline_after_ool ⟨fun e => ⟨9, e.xid⟩, fun _ => [3, 4]⟩
    (fun _ => true) (fun _ _ _ => true)
    [⟨1, false, 11, ⟨100, 0⟩, device_type_t.SEGMENTED, 0⟩,
     ⟨2, true, 22, ⟨100, 1⟩, device_type_t.SEGMENTED, 0⟩,
     ⟨3, true, 33, ⟨100, 2⟩, device_type_t.SEGMENTED, 0⟩]
    0 [0, 1, 0]).2
    (Event.update_mapping 22 ⟨100, 1⟩ ⟨9, 2⟩) (by decide) rfl

/-- C5: `delayed_alloc_or_ool_write` succeeds exactly when every allocator
group's out-of-line call and every inline `update_mapping` call succeeds —
any single failure fails the whole call — and if any out-of-line allocator
call fails, no inline index update appears in the trace at all. -/
theorem delayed_alloc_failure_semantics (p : ResolutionParams)
    (res : Nat → Bool) (ures : Nat → paddr_t → paddr_t → Bool)
    (l : List DExtent) (c0 : Nat) (rng : List Nat) :
    ((delayed_alloc_or_ool_write p res ures l c0 rng).2 = true
      ↔ ((∀ q ∈ (classify_loop p l (ClassifyState.init c0 rng)).alloc_map,
            res q.1 = true)
        ∧ (∀ q ∈ (classify_loop p l (ClassifyState.init c0 rng)).inline_list,
            ures q.2.laddr q.1 q.2.paddr = true)))
    ∧ ((∃ q, q ∈ (classify_loop p l (ClassifyState.init c0 rng)).alloc_map
          ∧ res q.1 = false) →
        ∀ ev ∈ (delayed_alloc_or_ool_write p res ures l c0 rng).1,
          ev.is_update = false) := by
  by_cases hr : (run_ool res
      (classify_loop p l (ClassifyState.init c0 rng)).alloc_map).2 = true
  · have hd : delayed_alloc_or_ool_write p res ures l c0 rng
        = ((run_ool res
              (classify_loop p l (ClassifyState.init c0 rng)).alloc_map).1
            ++ (run_inline ures
                (classify_loop p l (ClassifyState.init c0 rng)).inline_list).1,
           (run_inline ures
              (classify_loop p l (ClassifyState.init c0 rng)).inline_list).2) := by
      simp [delayed_alloc_or_ool_write, hr]
    rw [hd]
    constructor
    · rw [show ((run_ool res
            (classify_loop p l (ClassifyState.init c0 rng)).alloc_map).1
          ++ (run_inline ures
              (classify_loop p l (ClassifyState.init c0 rng)).inline_list).1,
         (run_inline ures
            (classify_loop p l (ClassifyState.init c0 rng)).inline_list).2).2
          = (run_inline ures
              (classify_loop p l (ClassifyState.init c0 rng)).inline_list).2
        from rfl]
      rw [run_inline_ok_iff]
      constructor
      · intro h2
        exact ⟨(run_ool_ok_iff res _).mp hr, h2⟩
      · intro h
        exact h.2
    · rintro ⟨q, hq, hqf⟩ ev hev
      have := (run_ool_ok_iff res _).mp hr q hq
      rw [hqf] at this
      exact absurd this (by simp)
  · have hd : delayed_alloc_or_ool_write p res ures l c0 rng
        = ((run_ool res
              (classify_loop p l (ClassifyState.init c0 rng)).alloc_map).1,
           false) := by
      simp [delayed_alloc_or_ool_write, hr]
    rw [hd]
    constructor
    · constructor
      · intro hfalse
        exact absurd hfalse (by simp)
      · rintro ⟨h1, _⟩
        exact absurd ((run_ool_ok_iff res _).mpr h1) hr
    · intro _ ev hev
      exact run_ool_no_update res _ ev hev

theorem delayed_alloc_failure_semantics_witness :
    Event.is_update (Event.ool_alloc 3 [3]) = false :=
  (delayed_alloc_failure_semantics ⟨fun e => ⟨9, e.xid⟩, fun _ => [3, 4]⟩
    (fun _ => false) (fun _ _ _ => true)
    [⟨1, false, 11, ⟨100, 0⟩, device_type_t.SEGMENTED, 0⟩,
     ⟨2, true, 22, ⟨100, 1⟩, device_type_t.SEGMENTED, 0⟩,
     ⟨3, true, 33, ⟨100, 2⟩, device_type_t.SEGMENTED, 0⟩]
    0 [0, 1, 0]).2
    ⟨(3, [⟨3, true, 33, ⟨100, 2⟩, device_type_t.SEGMENTED, 0⟩]),
      by decide, rfl⟩
    (Event.ool_alloc 3 [3]) (by decide)

/-- C6 counterexample: on a writer with one tracked open segment, the first
`stop()` succeeds but the second fails the seastar gate's
cannot-close-twice assertion — calling `stop()` twice is not safe. -/
theorem stop_twice_asserts :
    ((WriterState.stop ⟨⟨false⟩, [⟨0, true⟩]⟩).bind WriterState.stop)
      = Except.error "gate closed twice" := rfl

/-- C6 amended: a single `stop()` on a not-yet-stopped writer succeeds and
closes every open-segment handle tracked by the writer; a second `stop()`
fails the gate's not-already-closed assertion, so `stop()` is not safely
callable twice. -/
theorem stop_once_closes_all_segments (w : WriterState)
    (h : w.writer_guard.closed = false) :
    ∃ w2, WriterState.stop w = Except.ok w2
      ∧ (∀ s ∈ w2.open_segments, s.is_open = false)
      ∧ WriterState.stop w2 = Except.error "gate closed twice" := by
  refine ⟨⟨⟨true⟩, w.open_segments.map (fun s => ⟨s.sid, false⟩)⟩, ?_, ?_, ?_⟩
  · simp [WriterState.stop, gate_close, h, Except.map]
  · intro s hs
    obtain ⟨t, _, rfl⟩ := List.mem_map.mp hs
    rfl
  · rfl

theorem stop_once_closes_all_segments_witness :
    (⟨⟨false⟩, [⟨7, true⟩, ⟨8, true⟩]⟩ : WriterState).writer_guard.closed
        = false
    ∧ ∃ w2, WriterState.stop ⟨⟨false⟩, [⟨7, true⟩, ⟨8, true⟩]⟩ = Except.ok w2
        ∧ (∀ s ∈ w2.open_segments, s.is_open = false)
        ∧ WriterState.stop w2 = Except.error "gate closed twice" :=
  ⟨rfl, stop_once_closes_all_segments ⟨⟨false⟩, [⟨7, true⟩, ⟨8, true⟩]⟩ rfl⟩

/-- C7 (code bug): writer and allocator selection are driven by `std::rand()`
and ignore the placement hint entirely: with two writers and the rand stream
`[0, 1]`, two calls with the same hint select different writers (likewise for
allocators), while any two hints with the same rand state select the same
writer — selection is a function of the global rand state, not of the hint,
contradicting the source's own round-robin/hint-partitioning comment. -/
theorem selection_ignores_hint_and_depends_on_rand :
    ((get_writer [10, 11] 5 [0, 1]).1 = 10
      ∧ (get_writer [10, 11] 5 (get_writer [10, 11] 5 [0, 1]).2).1 = 11)
    ∧ (∀ writers : List Nat, ∀ h1 h2 : Nat, ∀ rng : List Nat,
        get_writer writers h1 rng = get_writer writers h2 rng)
    ∧ ((get_allocator (fun _ => [20, 21]) device_type_t.SEGMENTED 5
          [0, 1]).1 = 20
      ∧ (get_allocator (fun _ => [20, 21]) device_type_t.SEGMENTED 5
          (get_allocator (fun _ => [20, 21]) device_type_t.SEGMENTED 5
            [0, 1]).2).1 = 21)
    ∧ (∀ als : device_type_t → List Nat, ∀ ty : device_type_t,
        ∀ h1 h2 : Nat, ∀ rng : List Nat,
        get_allocator als ty h1 rng = get_allocator als ty h2 rng) := by
  refine ⟨⟨rfl, rfl⟩, ?_, ⟨rfl, rfl⟩, ?_⟩
  · intro _ _ _ _
    rfl
  · intro _ _ _ _ _
    rfl

/-- C9: `alloc_new_extent_by_type` and `alloc_new_extent` resolve the device
family from the hint, request a temporary placeholder address from the cache
exactly when that family needs delayed allocation (an immediately final
address otherwise), and record the resolved family and the hint on the
returned extent. -/
theorem alloc_new_extent_policy (tmp_token : Nat) (fin_addr : paddr_t)
    (ty len hint : Nat) :
    ((alloc_new_extent_by_type tmp_token fin_addr ty len hint).backend_type
        = get_allocator_type hint
      ∧ (alloc_new_extent_by_type tmp_token fin_addr ty len hint).hint = hint
      ∧ (alloc_new_extent_by_type tmp_token fin_addr ty len hint).addr
          = (if need_delayed_allocation (get_allocator_type hint)
              then addr_state.temporary tmp_token
              else addr_state.assigned fin_addr))
    ∧ ((alloc_new_extent tmp_token fin_addr ty len hint).backend_type
        = get_allocator_type hint
      ∧ (alloc_new_extent tmp_token fin_addr ty len hint).hint = hint
      ∧ (alloc_new_extent tmp_token fin_addr ty len hint).addr
          = (if need_delayed_allocation (get_allocator_type hint)
              then addr_state.temporary tmp_token
              else addr_state.assigned fin_addr)) :=
  ⟨⟨rfl, rfl, rfl⟩, ⟨rfl, rfl, rfl⟩⟩

/-- C10: `get_allocator_type` returns SEGMENTED for every placement hint, so
every extent allocated through the placement manager records the SEGMENTED
family, and the address policy (temporary versus final) chosen at creation
time is independent of the hint supplied. -/
theorem get_allocator_type_always_segmented :
    (∀ hint : Nat, get_allocator_type hint = device_type_t.SEGMENTED)
    ∧ (∀ tmp_token : Nat, ∀ fin_addr : paddr_t, ∀ ty len hint : Nat,
        (alloc_new_extent_by_type tmp_token fin_addr ty len hint).backend_type
          = device_type_t.SEGMENTED)
    ∧ (∀ tmp_token : Nat, ∀ fin_addr : paddr_t, ∀ ty len h1 h2 : Nat,
        (alloc_new_extent_by_type tmp_token fin_addr ty len h1).addr
          = (alloc_new_extent_by_type tmp_token fin_addr ty len h2).addr) :=
  ⟨fun _ => rfl, fun _ _ _ _ _ => rfl, fun _ _ _ _ _ _ => rfl⟩

end EPM
